import Mathlib

/-!
Verification development for the hashreport repository: a shallow embedding of
the worker pool (src/hashreport/utils/thread_pool.py), the worker-count
adaptation operations referenced by the test suite, the file filters
(src/hashreport/utils/filters.py), the hasher reader selection
(src/hashreport/utils/hasher.py) and the scan orchestrator
(src/hashreport/utils/scanner.py), followed by theorems settling the spec
claims about them.
-/

namespace Hashreport

/-! ### Worker pool: thread_pool.py -/

/-- Result record of one `ThreadPoolManager.process_items` run:
the accumulated `results` list, the number of `progress_bar.update()` calls
made while draining completed futures, and the number of futures submitted
to the executor. -/
structure PoolRun (β : Type) where
  results : List β
  progressUpdates : Nat
  dispatched : Nat
deriving Repr, DecidableEq

/-- Drain loop of `process_items` (thread_pool.py lines 63-76): iterate over
futures in completion order; a future that returns a value appends it to
`results` and updates the progress bar; a future whose `result()` raises is
caught, the progress bar is still updated, and the error is printed.  The
Python processing function is embedded as `f : α → Except String β`, the
error case standing for a raised exception. -/
def drainCompleted {α β : Type} (f : α → Except String β) : List α → List β × Nat
  | [] => ([], 0)
  | a :: rest =>
    let r := drainCompleted f rest
    match f a with
    | Except.ok b => (b :: r.1, r.2 + 1)
    | Except.error _ => (r.1, r.2 + 1)

/-- Embedding of `ThreadPoolManager.process_items` (thread_pool.py lines
42-80).  `items` is the submitted batch (each item is submitted once, so the
futures list has `items.length` entries); `completed` is the order in which
the futures complete, a permutation of `items` when the batch runs to
completion.  If the shutdown event is already set the method returns an
empty list without submitting anything.  Mid-batch shutdown interleavings
are concurrent behaviour outside the claims, which all concern batches run
to completion with a progress bar attached. -/
def processItems {α β : Type} (shutdown : Bool) (items completed : List α)
    (f : α → Except String β) : PoolRun β :=
  if shutdown then ⟨[], 0, 0⟩
  else ⟨(drainCompleted f completed).1, (drainCompleted f completed).2, items.length⟩

/-! ### Worker-count adaptation (spec-modelled)

The repository test suite (src/tests/utils/test_thread_pool.py) exercises
`pool.current_workers`, `pool.increase_workers()`, `pool.reduce_workers()`
and a `ResourceMonitor`, but the implementation of these operations is not
under src/ (the thread_pool.py there holds only the batch-processing
manager).  They are therefore modelled from the spec. -/

/-- Pool state relevant to worker-count adaptation: the current worker count
together with the configured bounds (`min_workers` / `max_workers` from
HashReportConfig, config.py lines 46-47). -/
structure PoolState where
  current_workers : Nat
  min_workers : Nat
  max_workers : Nat
deriving Repr, DecidableEq

/-- Modelled from the spec: `IncreaseWorkers()` is missing from
src/hashreport/utils/thread_pool.py (only the tests call it).  Spec: each
call changes `current_workers` by exactly one, clamped to
`[min_workers, max_workers]`. -/
def increase_workers (s : PoolState) : PoolState :=
  { s with current_workers := min (s.current_workers + 1) s.max_workers }

/-- Modelled from the spec: `ReduceWorkers()` is missing from
src/hashreport/utils/thread_pool.py (only the tests call it).  Spec: each
call changes `current_workers` by exactly one, clamped to
`[min_workers, max_workers]`; it never drops below the floor. -/
def reduce_workers (s : PoolState) : PoolState :=
  { s with current_workers := max (s.current_workers - 1) s.min_workers }

/-- One adaptation call, as issued by the resource monitor. -/
inductive WorkerOp where
  | increase
  | reduce
deriving Repr, DecidableEq

/-- Apply one adaptation call to the pool state. -/
def applyOp : WorkerOp → PoolState → PoolState
  | WorkerOp.increase, s => increase_workers s
  | WorkerOp.reduce, s => reduce_workers s

/-- Apply a sequence of adaptation calls, first element first. -/
def applyOps (ops : List WorkerOp) (s : PoolState) : PoolState :=
  ops.foldl (fun t op => applyOp op t) s

/-- Worker-bound validation from `HashReportConfig._validate_configuration`
(config.py lines 116-119): `min_workers` must be positive, and a present
`max_workers` must be positive; `_initialize_defaults` (config.py line 88)
additionally clamps `min_workers` to at most `max_workers`. -/
def workersConfigValid (minW maxW : Nat) : Bool :=
  decide (0 < minW) && decide (0 < maxW) && decide (minW ≤ maxW)

/-! ### Hasher: hasher.py -/

/-- How a file body is read while hashing. -/
inductive FileReaderKind where
  | mmapped
  | plainFile
deriving Repr, DecidableEq

/-- Default `mmap_threshold` from HashReportConfig (config.py line 35). -/
def mmapThresholdDefault : Nat := 10485760

/-- Chunk size hard-coded in `calculate_hash` (hasher.py line 56):
`iter(lambda: f.read(4096), b"")`. -/
def calculateHashChunkSize : Nat := 4096

/-- Reader selection of `get_file_reader` (hasher.py lines 22-37): the file
is memory-mapped exactly when `use_mmap` is set, the file size is positive
(mmap does not work with empty files) and the `mmap.mmap` call succeeds;
any mmap failure falls back to the regular file object.  The configured
`mmap_threshold` is never consulted by this function. -/
def getFileReaderKind (useMmap : Bool) (fileSize : Nat) (mmapSucceeds : Bool) :
    FileReaderKind :=
  if useMmap && decide (0 < fileSize) then
    if mmapSucceeds then FileReaderKind.mmapped else FileReaderKind.plainFile
  else FileReaderKind.plainFile

/-- Reader used by `calculate_hash` (hasher.py lines 53-57): it opens the
file with `open(filepath, "rb")` and reads fixed 4096-byte chunks for every
file, regardless of size; it never calls `get_file_reader` and never
consults `mmap_threshold`. -/
def calculateHashReaderKind (_fileSize : Nat) : FileReaderKind :=
  FileReaderKind.plainFile

/-- Modelled from the spec, for comparison with `getFileReaderKind`: the
spec (and the repository test
test_get_file_reader_respects_mmap_threshold) prescribe a memory-mapped
read exactly for files whose size exceeds the configured threshold, and
chunked reads at or below it. -/
def specFileReaderKind (fileSize threshold : Nat) : FileReaderKind :=
  if threshold < fileSize then FileReaderKind.mmapped else FileReaderKind.plainFile

/-! ### Filters: filters.py

`fnmatch.fnmatch` (CPython, POSIX) normalises case trivially, translates the
glob to a regular expression — `*` matches any character sequence including
separators, `?` any single character, `[...]`/`[!...]` a character class
with ranges, an unterminated `[` is a literal bracket — and matches it
against the WHOLE subject string.  The matcher below follows that
translation; it is written with an explicit fuel argument so that concrete
evaluations reduce inside the kernel, the wrapper always supplying more
fuel than the recursion can consume. -/

/-- One token of a translated glob pattern. -/
inductive GlobTok where
  | star
  | anyChar
  | lit (c : Char)
  | cls (neg : Bool) (members : List Char)
deriving Repr, DecidableEq

/-- Scan for the closing bracket of a character class; returns the member
characters and the remainder of the pattern, or `none` when the class is
unterminated. -/
def takeClass : List Char → Option (List Char × List Char)
  | [] => none
  | ']' :: rest => some ([], rest)
  | c :: rest =>
    match takeClass rest with
    | some (cls, r) => some (c :: cls, r)
    | none => none

/-- Parse a character class body (the pattern after the opening `[`):
an optional leading `!` negates, a `]` directly after that is a literal
member, and the class runs to the next `]`. -/
def parseClass (ps : List Char) : Option (Bool × List Char × List Char) :=
  let (neg, ps1) := match ps with
    | '!' :: t => (true, t)
    | _ => (false, ps)
  match ps1 with
  | ']' :: t =>
    match takeClass t with
    | some (cls, rest) => some (neg, ']' :: cls, rest)
    | none => none
  | _ =>
    match takeClass ps1 with
    | some (cls, rest) => some (neg, cls, rest)
    | none => none

/-- Membership of a character in a class member list, honouring `a-b`
ranges. -/
def memClass : List Char → Char → Bool
  | a :: '-' :: b :: rest, c => (decide (a ≤ c) && decide (c ≤ b)) || memClass rest c
  | a :: rest, c => (a = c) || memClass rest c
  | [], _ => false

/-- Tokenise a glob pattern, fuel-driven (fuel never runs out when it starts
above the pattern length, since every step consumes at least one pattern
character). -/
def tokenizeGlobF : Nat → List Char → List GlobTok
  | 0, _ => []
  | _ + 1, [] => []
  | fuel + 1, '*' :: ps => GlobTok.star :: tokenizeGlobF fuel ps
  | fuel + 1, '?' :: ps => GlobTok.anyChar :: tokenizeGlobF fuel ps
  | fuel + 1, '[' :: ps =>
    match parseClass ps with
    | some (neg, cls, rest) => GlobTok.cls neg cls :: tokenizeGlobF fuel rest
    | none => GlobTok.lit '[' :: tokenizeGlobF fuel ps
  | fuel + 1, c :: ps => GlobTok.lit c :: tokenizeGlobF fuel ps

/-- Tokenise a glob pattern. -/
def tokenizeGlob (ps : List Char) : List GlobTok :=
  tokenizeGlobF (ps.length + 1) ps

/-- Match translated glob tokens against a subject, full-string semantics,
fuel-driven (every step shrinks tokens-plus-subject, so the wrapper fuel
suffices). -/
def tokMatchF : Nat → List GlobTok → List Char → Bool
  | 0, _, _ => false
  | _ + 1, [], s => s.isEmpty
  | fuel + 1, GlobTok.star :: ts, [] => tokMatchF fuel ts []
  | fuel + 1, GlobTok.star :: ts, c :: cs =>
    tokMatchF fuel ts (c :: cs) || tokMatchF fuel (GlobTok.star :: ts) cs
  | fuel + 1, GlobTok.anyChar :: ts, _ :: cs => tokMatchF fuel ts cs
  | fuel + 1, GlobTok.lit p :: ts, c :: cs => (p = c) && tokMatchF fuel ts cs
  | fuel + 1, GlobTok.cls neg m :: ts, c :: cs =>
    (if neg then !memClass m c else memClass m c) && tokMatchF fuel ts cs
  | _ + 1, _ :: _, [] => false

/-- `fnmatch.fnmatch name pattern` on a POSIX platform. -/
def fnmatchMatch (name pattern : String) : Bool :=
  tokMatchF (pattern.data.length + name.data.length + 1)
    (tokenizeGlob pattern.data) name.data

/-- A Python regular-expression pattern as the filters see it: the `re`
engine itself is external, so a pattern is abstracted to whether
`re.compile` accepts it and, when it does, its unanchored `search`
predicate.  A malformed raw string makes `re.compile` (and `re.search`)
raise `re.error`. -/
structure PyRegex where
  wellFormed : Bool
  search : String → Bool

/-- A pattern list in one of the two independently selectable syntaxes of
filters.py: shell glob (`use_regex=False`, patterns stay raw strings) or
regular expression (`use_regex=True`). -/
inductive FilterPatterns where
  | glob (pats : List String)
  | regex (pats : List PyRegex)

/-- Truthiness of a pattern list (Python `if excludes and ...`). -/
def FilterPatterns.nonEmpty : FilterPatterns → Bool
  | FilterPatterns.glob pats => !pats.isEmpty
  | FilterPatterns.regex pats => !pats.isEmpty

/-- Embedding of `compile_patterns` (filters.py lines 10-19) in regex mode:
`re.compile` is applied to every pattern in order and raises `re.error` at
the first malformed one — the function has no error handling of its own. -/
def compilePatternsRegex : List PyRegex → Except String (List PyRegex)
  | [] => Except.ok []
  | p :: ps =>
    if p.wellFormed then (compilePatternsRegex ps).map (p :: ·)
    else Except.error "re.error"

/-- Embedding of `compile_patterns` (filters.py lines 10-19): glob patterns
are returned unchanged; regex patterns are compiled and may raise. -/
def compilePatterns : FilterPatterns → Except String FilterPatterns
  | FilterPatterns.glob pats => Except.ok (FilterPatterns.glob pats)
  | FilterPatterns.regex pats => (compilePatternsRegex pats).map FilterPatterns.regex

/-- Embedding of `matches_pattern` (filters.py lines 22-40) in glob mode:
an empty pattern list matches everything; otherwise the FULL path string
(`str(Path(path))`, the identity on an already normalised POSIX path) is
tested with `fnmatch.fnmatch` against each pattern. -/
def matchesPatternGlob (path : String) (patterns : List String) : Bool :=
  if patterns.isEmpty then true
  else patterns.any (fun pat => fnmatchMatch path pat)

/-- Embedding of `matches_pattern` (filters.py lines 22-40) in regex mode:
an empty list matches everything; otherwise each pattern is searched
(unanchored) against the full path, a malformed uncompiled pattern making
`re.search` raise. -/
def matchesPatternRegex (path : String) : List PyRegex → Except String Bool
  | [] => Except.ok false
  | p :: ps =>
    if p.wellFormed then
      if p.search path then Except.ok true else matchesPatternRegex path ps
    else Except.error "re.error"

/-- Dispatch of `matches_pattern` over the two modes, including the
empty-list short circuit. -/
def matchesPatternM (path : String) : FilterPatterns → Except String Bool
  | FilterPatterns.glob pats => Except.ok (matchesPatternGlob path pats)
  | FilterPatterns.regex pats =>
    if pats.isEmpty then Except.ok true else matchesPatternRegex path pats

/-- Body of `should_process_file` (filters.py lines 43-78) before its
catch-all `except`: regular-file check, `stat` for the size (`statSize` is
`none` when `stat` raises), size bounds (`is not None` comparisons),
compilation of the include then the exclude patterns, the exclude check,
then the include check.  Any raised exception is the `Except.error` case. -/
def shouldProcessFileBody (isFile : Bool) (statSize : Option Nat)
    (includeP excludeP : FilterPatterns) (minSize maxSize : Option Nat)
    (path : String) : Except String Bool := do
  if !isFile then
    return false
  match statSize with
  | none => Except.error "OSError"
  | some size =>
    match minSize with
    | some n => if size < n then return false
    | none => pure ()
    match maxSize with
    | some n => if n < size then return false
    | none => pure ()
    let includes ← compilePatterns includeP
    let excludes ← compilePatterns excludeP
    if excludes.nonEmpty then
      let m ← matchesPatternM path excludes
      if m then return false
    if includes.nonEmpty then
      let m ← matchesPatternM path includes
      if !m then return false
    return true

/-- Embedding of `should_process_file` (filters.py lines 43-78): the whole
body runs inside `try`, and the catch-all `except` logs and returns
`False`. -/
def shouldProcessFile (isFile : Bool) (statSize : Option Nat)
    (includeP excludeP : FilterPatterns) (minSize maxSize : Option Nat)
    (path : String) : Bool :=
  match shouldProcessFileBody isFile statSize includeP excludeP minSize maxSize path with
  | Except.ok b => b
  | Except.error _ => false

/-- A concretely malformed regex pattern such as the raw string
`"["` (or the `"[invalid"` used by test_pattern_error_handling):
`re.compile` rejects it. -/
def malformedPat : PyRegex :=
  { wellFormed := false, search := fun _ => false }

/-! ### Scan orchestrator: scanner.py -/

/-- `os.path.basename`, written on the character list so that it reduces in
the kernel. -/
def basenameAux : List Char → List Char → List Char
  | [], acc => acc.reverse
  | '/' :: rest, _ => basenameAux rest []
  | c :: rest, acc => basenameAux rest (c :: acc)

/-- `os.path.basename` for POSIX paths. -/
def basename (p : String) : String :=
  String.mk (basenameAux p.data [])

/-- `str.endswith`, written on character lists so that it reduces in the
kernel. -/
def strEndsWith (s suf : String) : Bool :=
  List.isPrefixOf suf.data.reverse s.data.reverse

/-- Python truthiness of an optional number (`if min_size and ...`):
`None` and `0` are falsy. -/
def truthyNat : Option Nat → Bool
  | none => false
  | some n => !decide (n = 0)

/-- Python truthiness of an optional string (`if file_extension and ...`):
`None` and the empty string are falsy. -/
def truthyStr : Option String → Bool
  | none => false
  | some s => !s.isEmpty

/-- Environment of one `walk_directory_and_log` invocation: the pieces of
file-system state the scanner observes.  `dirExists` says whether the root
exists and is a directory — `os.walk` silently yields nothing otherwise
(its `onerror` handler defaults to `None`).  `walkFiles` are the joined
paths `os.walk` yields under the root, in walk order, already reflecting
the recursive flag.  `sizeOf` is `os.path.getsize` at filter time (`none`
when it raises `OSError`); `aggSize` and `aggCtime` are `os.path.getsize`
and `os.path.getctime` as re-read later during aggregation; `hashOutcome`
is the outcome of `calculate_hash` per path (`some (digest, mtime)` on
success, `none` when hashing failed and the hash value is `None`).
`formatSize` stands for `format_size` and `formatTime` for the
`datetime.fromtimestamp(...).strftime` rendering, both external to the
claims. -/
structure ScanEnv where
  dirExists : Bool
  walkFiles : List String
  sizeOf : String → Option Nat
  aggSize : String → Option Nat
  aggCtime : String → Option Nat
  hashOutcome : String → Option (String × String)
  formatSize : Nat → String
  formatTime : Nat → String

/-- Arguments of `walk_directory_and_log` relevant to the claims. -/
structure ScanArgs where
  algorithm : String
  excludePaths : List String
  fileExt : Option String
  fileNames : List String
  minSize : Option Nat
  maxSize : Option Nat
  limit : Option Nat
  specificFiles : List String

/-- Embedding of the scanner-local `should_process_file` (scanner.py lines
68-96): exclude-path membership, extension suffix check on the basename,
explicit-name membership on the basename, then the sizes read via
`os.path.getsize` inside a `try` whose `except OSError` returns `False`.
The size bounds use Python truthiness (`if min_size and ...`). -/
def scanShouldProcessFile (env : ScanEnv) (args : ScanArgs) (p : String) : Bool :=
  if args.excludePaths.contains p then false
  else
    let name := basename p
    if truthyStr args.fileExt && !strEndsWith name (args.fileExt.getD "") then false
    else if !args.fileNames.isEmpty && !args.fileNames.contains name then false
    else
      match env.sizeOf p with
      | none => false
      | some size =>
        if truthyNat args.minSize && decide (size < args.minSize.getD 0) then false
        else if truthyNat args.maxSize && decide (args.maxSize.getD 0 < size) then false
        else true

/-- `[:limit]` slicing with `limit=None` meaning the whole list. -/
def takeLimit {α : Type} : Option Nat → List α → List α
  | none, l => l
  | some n, l => l.take n

/-- Embedding of `calculate_hash` as the scanner sees it (hasher.py lines
40-67): on success the tri-tuple `(filepath, digest, mtime)`; when any
exception is raised the catch-all returns `(filepath, None, "")`. -/
def calculateHash (env : ScanEnv) (p : String) : String × Option String × String :=
  match env.hashOutcome p with
  | some (digest, mtime) => (p, some digest, mtime)
  | none => (p, none, "")

/-- One row handed to the report handlers (scanner.py lines 200-212). -/
structure ReportEntry where
  fileName : String
  filePath : String
  sizeStr : String
  hashAlgorithm : String
  hashValue : String
  lastModified : String
  created : String
deriving Repr, DecidableEq

/-- Aggregation loop of `walk_directory_and_log` (scanner.py lines
195-212): results with a `None` hash value are dropped; for every
successful result the scanner re-reads `os.path.getsize` and
`os.path.getctime` with NO per-item error handling, so the first such read
that raises `OSError` aborts the whole loop — the `Except.error` case
carries the offending path. -/
def aggregateResults (env : ScanEnv) (alg : String) :
    List (String × Option String × String) → Except String (List ReportEntry)
  | [] => Except.ok []
  | (_, none, _) :: rest => aggregateResults env alg rest
  | (p, some h, mt) :: rest =>
    match env.aggSize p with
    | none => Except.error p
    | some sz =>
      match env.aggCtime p with
      | none => Except.error p
      | some ct =>
        (aggregateResults env alg rest).map
          (fun es =>
            { fileName := basename p
              filePath := p
              sizeStr := env.formatSize sz
              hashAlgorithm := alg
              hashValue := h
              lastModified := mt
              created := env.formatTime ct } :: es)

/-- Terminal outcome of one `walk_directory_and_log` call: either every
handler received `write(final_results)` and the success message was echoed,
or an error branch echoed a message and returned without writing. -/
inductive ScanOutcome where
  | written (entries : List ReportEntry)
  | errorReported (msg : String)
deriving Repr, DecidableEq

/-- Observable trace of one `walk_directory_and_log` call: whether the
thread pool context was entered, which items were handed to
`pool.process_items`, and the terminal outcome. -/
structure ScanTrace where
  poolStarted : Bool
  submitted : List String
  outcome : ScanOutcome
deriving Repr, DecidableEq

/-- The files the walk branch of `walk_directory_and_log` selects
(scanner.py lines 176-189): walk the root (nothing when it is missing or
not a directory), keep the paths passing `should_process_file`, truncate to
`limit`. -/
def filesToProcess (env : ScanEnv) (args : ScanArgs) : List String :=
  takeLimit args.limit
    ((if env.dirExists then env.walkFiles else []).filter
      (scanShouldProcessFile env args))

/-- Embedding of `walk_directory_and_log` (scanner.py lines 112-247).
The report handlers are built and `count_files` feeds the progress-bar
total, neither affecting the claims; then the `ThreadPoolManager` context
is entered unconditionally.  When `specific_files` is truthy, the filtered
list is computed but the `results = pool.process_items(...)` call sits only
in the `else` branch, so `for result in results` reads an unassigned local
and the raised `UnboundLocalError` is caught by the inner catch-all, which
echoes an error and returns without writing.  Otherwise the walk branch
submits the filtered, limited candidate list, hashes it (completion order
abstracted as submission order — no claim depends on entry order), and the
aggregation either raises (error echoed, nothing written) or the entries
are written by every handler. -/
def walkDirectoryAndLog (env : ScanEnv) (args : ScanArgs) : ScanTrace :=
  if !args.specificFiles.isEmpty then
    { poolStarted := true
      submitted := []
      outcome := ScanOutcome.errorReported "UnboundLocalError: results" }
  else
    let files := filesToProcess env args
    let results := files.map (calculateHash env)
    match aggregateResults env args.algorithm results with
    | Except.error p =>
      { poolStarted := true
        submitted := files
        outcome := ScanOutcome.errorReported ("OSError during aggregation: " ++ p) }
    | Except.ok entries =>
      { poolStarted := true
        submitted := files
        outcome := ScanOutcome.written entries }

/-! ### Concrete instances used by the closed checks -/

/-- Concrete processing function: item 2 raises, every other item returns
ten times its value. -/
def failAt2 : Nat → Except String Nat :=
  fun a => if a = 2 then Except.error "boom" else Except.ok (10 * a)

/-- Concrete processing function: item 5 raises, every other item returns
itself. -/
def failAt5 : Nat → Except String Nat :=
  fun a => if a = 5 then Except.error "io error" else Except.ok a

/-- Concrete environment: an existing root holding two hashable files, the
second of which loses its metadata between hashing and aggregation. -/
def envTwoFiles : ScanEnv :=
  { dirExists := true
    walkFiles := ["/r/a.txt", "/r/b.txt"]
    sizeOf := fun _ => some 5
    aggSize := fun p => if p = "/r/b.txt" then none else some 5
    aggCtime := fun _ => some 0
    hashOutcome := fun _ => some ("d41d8cd98f00b204e9800998ecf8427e", "2024-01-01 00:00:00")
    formatSize := fun _ => "0.00 MB"
    formatTime := fun _ => "2024-01-01 00:00:00" }

/-- Concrete arguments: defaults, no filters, no specific files. -/
def argsPlain : ScanArgs :=
  { algorithm := "md5"
    excludePaths := []
    fileExt := none
    fileNames := []
    minSize := none
    maxSize := none
    limit := none
    specificFiles := [] }

/-- Concrete environment: the root does not exist (or is not a directory),
so `os.walk` yields nothing. -/
def envMissingRoot : ScanEnv :=
  { dirExists := false
    walkFiles := []
    sizeOf := fun _ => none
    aggSize := fun _ => none
    aggCtime := fun _ => none
    hashOutcome := fun _ => none
    formatSize := fun _ => ""
    formatTime := fun _ => "" }

/-- Concrete arguments: one explicit specific file supplied. -/
def argsSpecific : ScanArgs :=
  { argsPlain with specificFiles := ["/r/a.txt"] }

/-- Concrete environment: an existing root with no files at all. -/
def envEmptyDir : ScanEnv :=
  { envMissingRoot with dirExists := true }

/-! ## Helper lemmas -/

theorem applyOp_min_eq (op : WorkerOp) (s : PoolState) :
    (applyOp op s).min_workers = s.min_workers := by
  cases op <;> rfl

theorem applyOp_max_eq (op : WorkerOp) (s : PoolState) :
    (applyOp op s).max_workers = s.max_workers := by
  cases op <;> rfl

theorem applyOp_range (op : WorkerOp) (s : PoolState)
    (hmm : s.min_workers ≤ s.max_workers)
    (hlo : s.min_workers ≤ s.current_workers)
    (hhi : s.current_workers ≤ s.max_workers) :
    s.min_workers ≤ (applyOp op s).current_workers
      ∧ (applyOp op s).current_workers ≤ s.max_workers := by
  cases op <;> simp only [applyOp, increase_workers, reduce_workers] <;>
    constructor <;> omega

theorem applyOps_min_eq (ops : List WorkerOp) (s : PoolState) :
    (applyOps ops s).min_workers = s.min_workers := by
  induction ops generalizing s with
  | nil => rfl
  | cons op ops ih =>
    show (applyOps ops (applyOp op s)).min_workers = s.min_workers
    rw [ih, applyOp_min_eq]

theorem applyOps_max_eq (ops : List WorkerOp) (s : PoolState) :
    (applyOps ops s).max_workers = s.max_workers := by
  induction ops generalizing s with
  | nil => rfl
  | cons op ops ih =>
    show (applyOps ops (applyOp op s)).max_workers = s.max_workers
    rw [ih, applyOp_max_eq]

theorem applyOps_range (ops : List WorkerOp) (s : PoolState)
    (hmm : s.min_workers ≤ s.max_workers)
    (hlo : s.min_workers ≤ s.current_workers)
    (hhi : s.current_workers ≤ s.max_workers) :
    s.min_workers ≤ (applyOps ops s).current_workers
      ∧ (applyOps ops s).current_workers ≤ s.max_workers := by
  induction ops generalizing s with
  | nil => exact ⟨hlo, hhi⟩
  | cons op ops ih =>
    have hr := applyOp_range op s hmm hlo hhi
    have hstep := ih (applyOp op s)
      (by rw [applyOp_min_eq, applyOp_max_eq]; exact hmm)
      (by rw [applyOp_min_eq]; exact hr.1)
      (by rw [applyOp_max_eq]; exact hr.2)
    show s.min_workers ≤ (applyOps ops (applyOp op s)).current_workers
      ∧ (applyOps ops (applyOp op s)).current_workers ≤ s.max_workers
    rw [applyOp_min_eq op s] at hstep
    rw [applyOp_max_eq op s] at hstep
    exact hstep

/-! ## Claim theorems -/

/-- Claim C1: the worker pool exposes `increase_workers` and
`reduce_workers`, each changing `current_workers` by exactly one per call
(clamped at the bounds), and for every sequence of such calls
`current_workers` stays within `[min_workers, max_workers]`; a
`reduce_workers` call made when `current_workers` equals `min_workers` is a
no-op, and under the validated configuration (`min_workers` positive) the
count never drops below 1. -/
theorem worker_count_adaptation (s t : PoolState) (ops : List WorkerOp)
    (hval : workersConfigValid s.min_workers s.max_workers = true)
    (hlo : s.min_workers ≤ s.current_workers)
    (hhi : s.current_workers ≤ s.max_workers) :
    (s.min_workers ≤ (applyOps ops s).current_workers
      ∧ (applyOps ops s).current_workers ≤ s.max_workers
      ∧ 1 ≤ (applyOps ops s).current_workers)
    ∧ (t.current_workers = t.min_workers → reduce_workers t = t)
    ∧ (t.current_workers < t.max_workers →
        (increase_workers t).current_workers = t.current_workers + 1)
    ∧ (t.min_workers < t.current_workers →
        (reduce_workers t).current_workers = t.current_workers - 1) := by
  have hval' : (0 < s.min_workers ∧ 0 < s.max_workers) ∧ s.min_workers ≤ s.max_workers := by
    simpa [workersConfigValid] using hval
  have hrange := applyOps_range ops s hval'.2 hlo hhi
  refine ⟨⟨hrange.1, hrange.2, le_trans hval'.1.1 hrange.1⟩, ?_, ?_, ?_⟩
  · intro h
    cases t with
    | mk c mn mx =>
      simp only at h
      subst h
      simp only [reduce_workers]
      have hmax : max (c - 1) c = c := by omega
      rw [hmax]
  · intro h
    simp only [increase_workers]
    omega
  · intro h
    simp only [reduce_workers]
    omega

/-- Claim C1 witness: starting from 4 workers with bounds `[2, 4]`, the
sequence reduce, reduce, reduce, increase keeps the count inside the
bounds, and at the floor state `⟨2, 2, 4⟩` a reduce call is a no-op. -/
theorem worker_count_adaptation_witness :
    ((PoolState.mk 4 2 4).min_workers ≤
        (applyOps [WorkerOp.reduce, WorkerOp.reduce, WorkerOp.reduce,
          WorkerOp.increase] (PoolState.mk 4 2 4)).current_workers
      ∧ (applyOps [WorkerOp.reduce, WorkerOp.reduce, WorkerOp.reduce,
          WorkerOp.increase] (PoolState.mk 4 2 4)).current_workers ≤
        (PoolState.mk 4 2 4).max_workers
      ∧ 1 ≤ (applyOps [WorkerOp.reduce, WorkerOp.reduce, WorkerOp.reduce,
          WorkerOp.increase] (PoolState.mk 4 2 4)).current_workers)
    ∧ ((PoolState.mk 2 2 4).current_workers = (PoolState.mk 2 2 4).min_workers →
        reduce_workers (PoolState.mk 2 2 4) = PoolState.mk 2 2 4)
    ∧ ((PoolState.mk 2 2 4).current_workers < (PoolState.mk 2 2 4).max_workers →
        (increase_workers (PoolState.mk 2 2 4)).current_workers =
          (PoolState.mk 2 2 4).current_workers + 1)
    ∧ ((PoolState.mk 2 2 4).min_workers < (PoolState.mk 2 2 4).current_workers →
        (reduce_workers (PoolState.mk 2 2 4)).current_workers =
          (PoolState.mk 2 2 4).current_workers - 1) :=
  worker_count_adaptation (PoolState.mk 4 2 4) (PoolState.mk 2 2 4)
    [WorkerOp.reduce, WorkerOp.reduce, WorkerOp.reduce, WorkerOp.increase]
    (by decide) (by decide) (by decide)

theorem drainCompleted_eq {α β : Type} (f : α → Except String β) (l : List α) :
    drainCompleted f l = (l.filterMap fun a => (f a).toOption, l.length) := by
  induction l with
  | nil => rfl
  | cons a t ih =>
    simp only [drainCompleted, ih]
    cases hfa : f a <;> simp [List.filterMap_cons, Except.toOption, hfa]

theorem processItems_eq {α β : Type} (items completed : List α)
    (f : α → Except String β) :
    processItems false items completed f =
      ⟨completed.filterMap fun a => (f a).toOption, completed.length, items.length⟩ := by
  simp [processItems, drainCompleted_eq]

theorem filterMap_length_of_forall_isSome {α β : Type} (g : α → Option β)
    (l : List α) (h : ∀ a ∈ l, (g a).isSome) :
    (l.filterMap g).length = l.length := by
  induction l with
  | nil => rfl
  | cons a t ih =>
    obtain ⟨b, hb⟩ := Option.isSome_iff_exists.mp (h a (List.mem_cons_self a t))
    simp [List.filterMap_cons, hb,
      ih (fun x hx => h x (List.mem_cons_of_mem a hx))]

theorem filterMap_length_single_none {α β : Type} [DecidableEq α]
    (g : α → Option β) (l : List α) (e : α)
    (hcount : l.count e = 1) (hge : g e = none)
    (hok : ∀ a ∈ l, a ≠ e → (g a).isSome) :
    (l.filterMap g).length = l.length - 1 := by
  induction l with
  | nil => simp at hcount
  | cons a t ih =>
    by_cases hae : a = e
    · subst hae
      have ht : t.count a = 0 := by
        rw [List.count_cons_self] at hcount
        omega
      have hnotmem : a ∉ t := List.count_eq_zero.mp ht
      have hall : ∀ x ∈ t, (g x).isSome := by
        intro x hx
        refine hok x (List.mem_cons_of_mem a hx) ?_
        intro hxe
        exact hnotmem (hxe ▸ hx)
      simp [List.filterMap_cons, hge, filterMap_length_of_forall_isSome g t hall]
    · have hcount' : t.count e = 1 := by
        rw [List.count_cons] at hcount
        simp [hae] at hcount
        exact hcount
      have hmem : e ∈ t := by
        have : 0 < t.count e := by omega
        exact List.count_pos_iff.mp this
      have htlen : 1 ≤ t.length := List.length_pos_of_mem hmem
      obtain ⟨b, hb⟩ := Option.isSome_iff_exists.mp
        (hok a (List.mem_cons_self a t) hae)
      have hrec := ih hcount' (fun x hx hxe => hok x (List.mem_cons_of_mem a hx) hxe)
      simp only [List.filterMap_cons, hb, List.length_cons, hrec]
      omega

/-- Claim C2: for every batch in which exactly one item raises, the pool
returns the results of all the other items, the failed item contributes no
result (the result list is a permutation of the successful outcomes and is
one shorter than the batch), and the failed item is counted exactly once in
progress; the failure is caught inside the drain loop, so it never
propagates out of `process_items` nor aborts sibling items. -/
theorem process_items_partial_failure {α β : Type} [DecidableEq α]
    (items completed : List α) (f : α → Except String β) (e : α)
    (hperm : completed.Perm items)
    (hcount : items.count e = 1)
    (hfail : (f e).toOption = none)
    (hok : ∀ a ∈ items, a ≠ e → ((f a).toOption).isSome) :
    (∀ a ∈ items, ∀ b, f a = Except.ok b →
        b ∈ (processItems false items completed f).results)
    ∧ (processItems false items completed f).results.Perm
        (items.filterMap fun a => (f a).toOption)
    ∧ (processItems false items completed f).results.length = items.length - 1
    ∧ (processItems false items completed f).progressUpdates = items.length := by
  have hpermFM : (completed.filterMap fun a => (f a).toOption).Perm
      (items.filterMap fun a => (f a).toOption) :=
    hperm.filterMap fun a => (f a).toOption
  rw [processItems_eq]
  refine ⟨?_, hpermFM, ?_, hperm.length_eq⟩
  · intro a ha b hab
    have hsome : (f a).toOption = some b := by rw [hab]; rfl
    have : b ∈ items.filterMap fun a => (f a).toOption :=
      List.mem_filterMap.mpr ⟨a, ha, hsome⟩
    exact hpermFM.mem_iff.mpr this
  · rw [hpermFM.length_eq]
    exact filterMap_length_single_none _ items e hcount hfail hok

/-- Claim C2 witness: in the batch `[1, 2, 3]` completing in the order
`[3, 1, 2]` under a function that raises exactly on item 2, the results
are exactly the other two outcomes, the failed item is absent, and progress
counts all three items. -/
theorem process_items_partial_failure_witness :
    (∀ a ∈ [1, 2, 3], ∀ b, failAt2 a = Except.ok b →
        b ∈ (processItems false [1, 2, 3] [3, 1, 2] failAt2).results)
    ∧ (processItems false [1, 2, 3] [3, 1, 2] failAt2).results.Perm
        ([1, 2, 3].filterMap fun a => (failAt2 a).toOption)
    ∧ (processItems false [1, 2, 3] [3, 1, 2] failAt2).results.length =
        ([1, 2, 3] : List Nat).length - 1
    ∧ (processItems false [1, 2, 3] [3, 1, 2] failAt2).progressUpdates =
        ([1, 2, 3] : List Nat).length :=
  process_items_partial_failure [1, 2, 3] [3, 1, 2] failAt2 2
    (by decide) (by decide) (by decide) (by decide)

/-- Claim C8: for every batch of N items processed to completion (any mix
of successes and failures, any completion order), the progress bar is
updated exactly once per drained future, so the final count equals N. -/
theorem progress_updated_once_per_item {α β : Type} (items completed : List α)
    (f : α → Except String β) (hperm : completed.Perm items) :
    (processItems false items completed f).progressUpdates = items.length := by
  rw [processItems_eq]
  exact hperm.length_eq

/-- Claim C8 witness: the batch `[5, 6]` completing in the order `[6, 5]`
under a function that raises on item 5 still drives the progress count to
2. -/
theorem progress_updated_once_per_item_witness :
    (processItems false [5, 6] [6, 5] failAt5).progressUpdates =
      ([5, 6] : List Nat).length :=
  progress_updated_once_per_item [5, 6] [6, 5] failAt5
    ((List.Perm.swap 6 5 []).symm)

theorem takeLimit_nil {α : Type} (o : Option Nat) :
    takeLimit o ([] : List α) = [] := by
  cases o <;> simp [takeLimit]

theorem aggregateResults_error_of_missing (env : ScanEnv) (alg : String)
    (l : List (String × Option String × String))
    (h : ∃ r ∈ l, r.2.1.isSome ∧ (env.aggSize r.1 = none ∨ env.aggCtime r.1 = none)) :
    ∃ m, aggregateResults env alg l = Except.error m := by
  induction l with
  | nil => simp at h
  | cons r rest ih =>
    obtain ⟨p, opt, mt⟩ := r
    cases opt with
    | none =>
      obtain ⟨w, hw, hsome, hmiss⟩ := h
      rcases List.mem_cons.mp hw with hhead | htail
      · rw [hhead] at hsome
        simp at hsome
      · exact ih ⟨w, htail, hsome, hmiss⟩
    | some d =>
      cases hsz : env.aggSize p with
      | none => exact ⟨p, by simp [aggregateResults, hsz]⟩
      | some sz =>
        cases hct : env.aggCtime p with
        | none => exact ⟨p, by simp [aggregateResults, hsz, hct]⟩
        | some ct =>
          obtain ⟨w, hw, hsome, hmiss⟩ := h
          rcases List.mem_cons.mp hw with hhead | htail
          · exfalso
            rw [hhead] at hmiss
            simp only at hmiss
            rcases hmiss with hm | hm
            · rw [hsz] at hm; cases hm
            · rw [hct] at hm; cases hm
          · obtain ⟨m, hm⟩ := ih ⟨w, htail, hsome, hmiss⟩
            exact ⟨m, by simp [aggregateResults, hsz, hct, hm, Except.map]⟩

/-- Claim C9: a worker pool handed zero items returns an empty result list
with no future dispatched and no progress update, and a scan whose
qualifying candidate set is empty submits nothing, produces no entries, and
still ends with every handler writing the empty report (no error). -/
theorem empty_batch_and_empty_scan {α β : Type} (f : α → Except String β)
    (env : ScanEnv) (args : ScanArgs)
    (hspec : args.specificFiles = [])
    (hempty : filesToProcess env args = []) :
    processItems false ([] : List α) [] f = ⟨[], 0, 0⟩
    ∧ (walkDirectoryAndLog env args).submitted = []
    ∧ (walkDirectoryAndLog env args).outcome = ScanOutcome.written [] := by
  refine ⟨rfl, ?_, ?_⟩ <;>
    simp [walkDirectoryAndLog, hspec, hempty, aggregateResults]

/-- Claim C9 witness: the pool on the empty batch, and the scan of an
existing empty directory, both at concrete inputs. -/
theorem empty_batch_and_empty_scan_witness :
    processItems false ([] : List Nat) [] failAt2 = ⟨[], 0, 0⟩
    ∧ (walkDirectoryAndLog envEmptyDir argsPlain).submitted = []
    ∧ (walkDirectoryAndLog envEmptyDir argsPlain).outcome = ScanOutcome.written [] :=
  empty_batch_and_empty_scan failAt2 envEmptyDir argsPlain rfl rfl

/-- Claim C10: during aggregation the scanner re-reads size and creation
time of every successfully hashed path with no per-item error handling, so
if any single such file has become unreadable between hashing and
aggregation the exception escapes the per-item boundary: the scan ends in
the error branch and no report is written for the remaining successful
results. -/
theorem aggregation_metadata_failure_fails_scan (env : ScanEnv)
    (args : ScanArgs) (p : String)
    (hspec : args.specificFiles = [])
    (hp : p ∈ filesToProcess env args)
    (hhash : (env.hashOutcome p).isSome)
    (hmeta : env.aggSize p = none ∨ env.aggCtime p = none) :
    ∃ msg, (walkDirectoryAndLog env args).outcome = ScanOutcome.errorReported msg
      ∧ ∀ entries, (walkDirectoryAndLog env args).outcome ≠ ScanOutcome.written entries := by
  obtain ⟨⟨d, mt⟩, hd⟩ := Option.isSome_iff_exists.mp hhash
  have hcalc : calculateHash env p = (p, some d, mt) := by
    simp [calculateHash, hd]
  have hmem : (p, some d, mt) ∈ (filesToProcess env args).map (calculateHash env) :=
    List.mem_map.mpr ⟨p, hp, hcalc⟩
  obtain ⟨m, hm⟩ := aggregateResults_error_of_missing env args.algorithm
    ((filesToProcess env args).map (calculateHash env))
    ⟨(p, some d, mt), hmem, by simp, hmeta⟩
  refine ⟨"OSError during aggregation: " ++ m, ?_, ?_⟩ <;>
    simp [walkDirectoryAndLog, hspec, hm]

/-- Claim C10 witness: a scan of two files where the second loses its
metadata between hashing and aggregation ends in the error branch with no
report written. -/
theorem aggregation_metadata_failure_fails_scan_witness :
    ∃ msg, (walkDirectoryAndLog envTwoFiles argsPlain).outcome =
        ScanOutcome.errorReported msg
      ∧ ∀ entries, (walkDirectoryAndLog envTwoFiles argsPlain).outcome ≠
        ScanOutcome.written entries :=
  aggregation_metadata_failure_fails_scan envTwoFiles argsPlain "/r/b.txt"
    rfl (by decide) (by decide) (Or.inl (by decide))

/-- Claim C3 (code evaluation): with a non-empty `specific_files` set the
scanner takes the branch in which `results = pool.process_items(...)` was
never executed (the call sits only under `else`), so nothing is submitted
to the pool, the unbound local `results` raises, the catch-all echoes an
error, and no report is written — contradicting the claim (and the test
test_walk_directory_with_specific_files, which expects the report file). -/
theorem specific_files_never_dispatched :
    (walkDirectoryAndLog envTwoFiles argsSpecific).submitted = []
    ∧ (walkDirectoryAndLog envTwoFiles argsSpecific).outcome =
        ScanOutcome.errorReported "UnboundLocalError: results"
    ∧ ∀ entries, (walkDirectoryAndLog envTwoFiles argsSpecific).outcome ≠
        ScanOutcome.written entries :=
  ⟨rfl, rfl, fun _ h => ScanOutcome.noConfusion h⟩

/-- Claim C7 counterexample: for a root that does not exist (or is not a
directory) the scanner raises no precondition error — the walk silently
yields nothing, the thread-pool context is still entered, and an EMPTY
report is written successfully, against the claimed fail-fast with no pool
started and no report written. -/
theorem missing_root_counterexample :
    (walkDirectoryAndLog envMissingRoot argsPlain).poolStarted = true
    ∧ (walkDirectoryAndLog envMissingRoot argsPlain).outcome =
        ScanOutcome.written [] :=
  ⟨rfl, rfl⟩

/-- Claim C7 (amended): `walk_directory_and_log` performs no root
precondition check of its own — for every root that does not exist or is
not a directory the walk produces an empty candidate set, the worker pool
is still started, no file is hashed, and an empty report is written without
error (root validation happens only in the CLI argument layer, before the
scanner runs). -/
theorem missing_root_writes_empty_report (env : ScanEnv) (args : ScanArgs)
    (hdir : env.dirExists = false) (hspec : args.specificFiles = []) :
    (walkDirectoryAndLog env args).poolStarted = true
    ∧ (walkDirectoryAndLog env args).submitted = []
    ∧ (walkDirectoryAndLog env args).outcome = ScanOutcome.written [] := by
  have hempty : filesToProcess env args = [] := by
    simp [filesToProcess, hdir, takeLimit_nil]
  refine ⟨?_, ?_, ?_⟩ <;>
    simp [walkDirectoryAndLog, hspec, hempty, aggregateResults]

/-- Claim C7 witness: the amended behaviour at the concrete missing-root
environment. -/
theorem missing_root_writes_empty_report_witness :
    (walkDirectoryAndLog envMissingRoot argsPlain).poolStarted = true
    ∧ (walkDirectoryAndLog envMissingRoot argsPlain).submitted = []
    ∧ (walkDirectoryAndLog envMissingRoot argsPlain).outcome =
        ScanOutcome.written [] :=
  missing_root_writes_empty_report envMissingRoot argsPlain rfl rfl

/-- Claim C4 (code evaluation): the threshold rule is absent from the code.
`get_file_reader` memory-maps every non-empty file — already a 1-byte file,
far below the default threshold of 10485760 bytes, is mmapped, diverging
from the spec-modelled reader (and from the repository test
test_get_file_reader_respects_mmap_threshold); and `calculate_hash`, the
reader actually used for hashing, reads plain 4096-byte chunks at every
size, so even a file above the threshold is not mmapped.  The genuine part
of the claim also evaluates: a zero-length file and an mmap failure both
fall back to the plain reader. -/
theorem file_reader_ignores_mmap_threshold :
    getFileReaderKind true 1 true = FileReaderKind.mmapped
    ∧ 1 ≤ mmapThresholdDefault
    ∧ getFileReaderKind true 1 true ≠ specFileReaderKind 1 mmapThresholdDefault
    ∧ (∀ n, calculateHashReaderKind n = FileReaderKind.plainFile)
    ∧ calculateHashReaderKind (mmapThresholdDefault + 1) ≠
        specFileReaderKind (mmapThresholdDefault + 1) mmapThresholdDefault
    ∧ getFileReaderKind true 0 true = FileReaderKind.plainFile
    ∧ getFileReaderKind true 1 false = FileReaderKind.plainFile :=
  ⟨rfl, by decide, by decide, fun _ => rfl, by decide, rfl, rfl⟩

/-- Claim C5 counterexample: the glob pattern `test.*` does NOT match the
path `/any/depth/test.txt`, because `matches_pattern` hands the WHOLE path
string to `fnmatch`, which requires the pattern to cover the entire
subject. -/
theorem glob_full_path_counterexample :
    matchesPatternGlob "/any/depth/test.txt" ["test.*"] = false := by
  decide

/-- Claim C5 (amended): include and exclude patterns are matched against
the full path string, not the basename — for every path and non-empty glob
pattern list, `matches_pattern` is `fnmatch` of the whole path against some
pattern, so the glob `test.*` matches the bare filename `test.txt` but not
`/any/depth/test.txt` (a regex pattern, by contrast, is applied with an
unanchored search over the full path and can still hit the filename as a
substring). -/
theorem matches_pattern_full_path (path : String) (pats : List String)
    (h : pats ≠ []) :
    matchesPatternGlob path pats = pats.any (fun pat => fnmatchMatch path pat)
    ∧ matchesPatternGlob "test.txt" ["test.*"] = true := by
  constructor
  · cases pats with
    | nil => exact absurd rfl h
    | cons a t => rfl
  · decide

/-- Claim C5 witness: the amended statement at a concrete path and pattern
list. -/
theorem matches_pattern_full_path_witness :
    matchesPatternGlob "/d/x.log" ["*.log"] =
        ([ "*.log" ].any (fun pat => fnmatchMatch "/d/x.log" pat))
    ∧ matchesPatternGlob "test.txt" ["test.*"] = true :=
  matches_pattern_full_path "/d/x.log" ["*.log"] (by decide)

/-- Claim C6 (code evaluation): a malformed regex pattern is NOT treated as
non-matching — `compile_patterns` raises `re.error` at it (whereas the
repository test test_pattern_error_handling expects the empty list), and
inside `should_process_file` the catch-all converts that exception into
`False`, so a malformed EXCLUDE pattern makes the file be dropped, against
the claim that filtering proceeds as if the bad pattern matched nothing.
The glob mode, for comparison, does treat the malformed pattern `[` as
simply non-matching. -/
theorem malformed_exclude_pattern_drops_file :
    compilePatternsRegex [malformedPat] = Except.error "re.error"
    ∧ shouldProcessFile true (some 5) (FilterPatterns.regex [])
        (FilterPatterns.regex [malformedPat]) none none "test.txt" = false
    ∧ matchesPatternGlob "test.txt" ["["] = false := by
  refine ⟨rfl, rfl, by decide⟩

end Hashreport
